import Mathlib

/-!
Verification of the TypeScript drag-and-drop project-board app
(`src/app.ts`, final tutorial stage, `namespace App`).

Modelling conventions (shallow embedding):
* JS numbers appearing in this fragment are modelled as `Int` (the claims only
  involve integral values; `NaN`-producing coercions are abstracted by passing
  the result of the JS unary `+` coercion as an explicit parameter).
* JS arrays are mutable references: a `Heap` maps addresses to array contents,
  `Array.prototype.slice()` allocates a fresh address holding a copy, and the
  store's `projects` field is an address into the heap.  This makes the
  aliasing facts behind the "defensive copy" guarantee expressible.
* Listener callbacks are opaque: they are identified by a `Nat` id, and a
  notification pass (`updateListeners`) returns the list of delivered events
  `(listener id, address of the snapshot passed to it)` in invocation order.
* `Math.random().toString()` in `addProject` is a source of randomness; the
  value it returned is passed in as the explicit parameter `freshId`.
* DOM side effects (alert, field clearing, preventDefault, classList) are
  reified as data in result records.
-/

namespace App

/-- `ProjectStatus` enum from `project-model.ts` (referenced by `app.ts`):
`Active` and `Finished`. -/
inductive ProjectStatus where
  | Active
  | Finished
deriving DecidableEq, Repr

/-- The `Project` class: `id`, `title`, `description`, `people`, `status`.
The `people` field is a JS number, modelled as `Int`. -/
structure Project where
  id : String
  title : String
  description : String
  people : Int
  status : ProjectStatus
deriving DecidableEq, Repr

/-- A heap of JS arrays of projects: the cell at index `a` is the contents of
the array whose reference is `a`.  New arrays are allocated at the end. -/
structure Heap where
  cells : List (List Project)
deriving DecidableEq, Repr

/-- Dereference an array: the contents at address `a` (empty if dangling). -/
def Heap.read (h : Heap) (a : Nat) : List Project :=
  h.cells.getD a []

/-- Allocate a fresh array holding `v`; returns the new heap and the fresh
address. -/
def Heap.alloc (h : Heap) (v : List Project) : Heap × Nat :=
  (⟨h.cells ++ [v]⟩, h.cells.length)

/-- Overwrite the array at address `a` with contents `v` (no-op if dangling);
this models any in-place mutation of that array. -/
def Heap.write (h : Heap) (a : Nat) (v : List Project) : Heap :=
  ⟨h.cells.set a v⟩

/-- An address is live in the heap. -/
def Heap.valid (h : Heap) (a : Nat) : Prop :=
  a < h.cells.length

/-- The `ProjectState` singleton's instance data: the reference held in its
private `projects` field, and its registered listeners (from the `State` base
class), identified opaquely, in registration order. -/
structure ProjectState where
  projectsRef : Nat
  listeners : List Nat
deriving DecidableEq, Repr

/-- One pass of `updateListeners`' loop body over a list of listeners: for each
listener in order, evaluate `this.projects.slice()` (allocating a fresh copy of
the array at `src`) and invoke the listener with it.  Returns the final heap
and the delivered events `(listener, snapshot address)` in invocation order. -/
def notifyAll (src : Nat) : Heap → List Nat → Heap × List (Nat × Nat)
  | h, [] => (h, [])
  | h, l :: ls =>
    let alloc := h.alloc (h.read src)
    let rest := notifyAll src alloc.1 ls
    (rest.1, (l, alloc.2) :: rest.2)

/-- `ProjectState.updateListeners`: `for (const listenerFunction of
this.listeners) listenerFunction(this.projects.slice())`. -/
def ProjectState.updateListeners (h : Heap) (s : ProjectState) :
    Heap × List (Nat × Nat) :=
  notifyAll s.projectsRef h s.listeners

/-- `ProjectState.addProject(title, description, numberOfPeople)`: builds
`new Project(Math.random().toString(), title, description, numberOfPeople,
ProjectStatus.Active)`, pushes it onto `this.projects`, then calls
`updateListeners`.  The value returned by `Math.random().toString()` is the
parameter `freshId`.  Returns the heap, the (unchanged) instance fields, and
the delivered notification events. -/
def ProjectState.addProject (h : Heap) (s : ProjectState)
    (freshId title description : String) (numberOfPeople : Int) :
    Heap × ProjectState × List (Nat × Nat) :=
  let newProject : Project :=
    ⟨freshId, title, description, numberOfPeople, ProjectStatus.Active⟩
  let h1 := h.write s.projectsRef (h.read s.projectsRef ++ [newProject])
  let notified := ProjectState.updateListeners h1 s
  (notified.1, s, notified.2)

/-- `project.status = newStatus` where `project` is the object returned by
`this.projects.find(p => p.id === projectId)`: updates the status of the first
element whose id matches, leaving everything else untouched. -/
def setStatusFirst (projectId : String) (newStatus : ProjectStatus) :
    List Project → List Project
  | [] => []
  | p :: ps =>
    if p.id = projectId then { p with status := newStatus } :: ps
    else p :: setStatusFirst projectId newStatus ps

/-- `ProjectState.moveProject(projectId, newStatus)`: finds the project by id;
if found and its status differs from `newStatus`, mutates its status in place
and calls `updateListeners`; otherwise does nothing. -/
def ProjectState.moveProject (h : Heap) (s : ProjectState)
    (projectId : String) (newStatus : ProjectStatus) :
    Heap × ProjectState × List (Nat × Nat) :=
  let projects := h.read s.projectsRef
  match projects.find? (fun p => p.id == projectId) with
  | some project =>
    if project.status ≠ newStatus then
      let h1 := h.write s.projectsRef (setStatusFirst projectId newStatus projects)
      let notified := ProjectState.updateListeners h1 s
      (notified.1, s, notified.2)
    else (h, s, [])
  | none => (h, s, [])

/-- The `string | number` union type of `Validatable.value`. -/
inductive JSValue where
  | str (s : String)
  | num (n : Int)
deriving DecidableEq, Repr

/-- JS `value.toString()` on a `string | number` value. -/
def JSValue.toStr : JSValue → String
  | .str s => s
  | .num n => toString n

/-- The `Validatable` interface: a value plus optional constraints (`none`
models an absent / `undefined` field). -/
structure Validatable where
  value : JSValue
  required : Option Bool
  minLength : Option Int
  maxLength : Option Int
  min : Option Int
  max : Option Int
deriving DecidableEq, Repr

/-- JS `String.prototype.trim()`: drops leading and trailing whitespace.
(Defined over the character list so that it evaluates inside the kernel;
Lean's own `String.trim` has the same meaning but is defined by well-founded
recursion on byte positions and does not reduce.) -/
def jsTrim (s : String) : String :=
  ⟨((s.data.dropWhile Char.isWhitespace).reverse.dropWhile
      Char.isWhitespace).reverse⟩

/-- The `validate` function, mirroring the source's sequence of guarded
`isValid = isValid && …` updates: `required` (truthy) checks the trimmed
string form is non-empty; `minLength`/`maxLength` apply only to string values;
`min`/`max` apply only to numeric values. -/
def validate (validatableInput : Validatable) : Bool :=
  let isValid := true
  let isValid :=
    if validatableInput.required.getD false then
      isValid && decide ((jsTrim validatableInput.value.toStr).length ≠ 0)
    else isValid
  let isValid :=
    match validatableInput.minLength, validatableInput.value with
    | some minLength, .str s => isValid && decide (minLength ≤ (s.length : Int))
    | _, _ => isValid
  let isValid :=
    match validatableInput.maxLength, validatableInput.value with
    | some maxLength, .str s => isValid && decide ((s.length : Int) ≤ maxLength)
    | _, _ => isValid
  let isValid :=
    match validatableInput.min, validatableInput.value with
    | some min, .num n => isValid && decide (min ≤ n)
    | _, _ => isValid
  let isValid :=
    match validatableInput.max, validatableInput.value with
    | some max, .num n => isValid && decide (n ≤ max)
    | _, _ => isValid
  isValid

/-- The specification's reading of validation (written from the spec's words,
for comparison with `validate`): the logical AND of the supplied checks, where
`required` demands a non-empty trimmed string form, `minLength`/`maxLength`
apply only when the value is textual (inclusive bounds), and `min`/`max` apply
only when the value is numeric (inclusive bounds). -/
def validSpec (i : Validatable) : Prop :=
  (i.required.getD false = true → (jsTrim i.value.toStr).length ≠ 0) ∧
  (match i.minLength, i.value with
   | some m, .str s => m ≤ (s.length : Int)
   | _, _ => True) ∧
  (match i.maxLength, i.value with
   | some m, .str s => (s.length : Int) ≤ m
   | _, _ => True) ∧
  (match i.min, i.value with
   | some m, .num n => m ≤ n
   | _, _ => True) ∧
  (match i.max, i.value with
   | some m, .num n => n ≤ m
   | _, _ => True)

/-- The three input fields of the `ProjectInput` form (their current string
values). -/
structure FormFields where
  title : String
  description : String
  people : String
deriving DecidableEq, Repr

/-- `ProjectInput.gatherUserInput`: builds the three `Validatable` descriptors
(title: required; description: required, `minLength: 5`; people coerced by JS
unary `+` — modelled by the `coerce` parameter — required, `min: 1`, `max: 5`);
if any fails `validate` it alerts `"Invalid input, please try again!"` and
returns nothing, otherwise it returns the tuple.  The second component is the
list of alert messages shown. -/
def gatherUserInput (coerce : String → Int) (f : FormFields) :
    Option (String × String × Int) × List String :=
  let titleValidatable : Validatable :=
    ⟨.str f.title, some true, none, none, none, none⟩
  let descriptionValidatable : Validatable :=
    ⟨.str f.description, some true, some 5, none, none, none⟩
  let peopleValidatable : Validatable :=
    ⟨.num (coerce f.people), some true, none, none, some 1, some 5⟩
  if !validate titleValidatable || !validate descriptionValidatable
      || !validate peopleValidatable then
    (none, ["Invalid input, please try again!"])
  else
    (some (f.title, f.description, coerce f.people), [])

/-- The observable outcome of one run of `ProjectInput.submitHandler`: the
heap and store afterwards, the notification events delivered, the final
contents of the three input fields, the alerts shown, and the record of
`addProject` calls made (arguments, in order). -/
structure SubmitResult where
  heap : Heap
  state : ProjectState
  notifications : List (Nat × Nat)
  fields : FormFields
  alerts : List String
  addProjectCalls : List (String × String × Int)
deriving Repr

/-- `ProjectInput.submitHandler`: prevents the default action, runs
`gatherUserInput`, and if it returned a tuple calls
`projectState.addProject(title, description, people)` and then `clearInputs`
(all three fields to `""`); otherwise leaves everything untouched. -/
def submitHandler (coerce : String → Int) (freshId : String) (f : FormFields)
    (h : Heap) (s : ProjectState) : SubmitResult :=
  match gatherUserInput coerce f with
  | (some (title, description, people), alerts) =>
    let r := ProjectState.addProject h s freshId title description people
    ⟨r.1, r.2.1, r.2.2, ⟨"", "", ""⟩, alerts, [(title, description, people)]⟩
  | (none, alerts) => ⟨h, s, [], f, alerts, []⟩

/-- The `ProjectItem.persons` getter: `"1 person"` when `people === 1`, else
`` `${people} people` ``. -/
def ProjectItem.persons (project : Project) : String :=
  if project.people = 1 then "1 person"
  else toString project.people ++ " people"

/-- The text contents `ProjectItem.renderContent` writes into the card's
`h2`, `h3` and `p` elements. -/
structure RenderedItem where
  h2 : String
  h3 : String
  p : String
deriving DecidableEq, Repr

/-- `ProjectItem.renderContent`: `h2 ← title`, `h3 ← persons + " assigned"`,
`p ← description`. -/
def ProjectItem.renderContent (project : Project) : RenderedItem :=
  ⟨project.title, ProjectItem.persons project ++ " assigned",
    project.description⟩

/-- The `DataTransfer` object of a drag event: its ordered list of payload
MIME types. -/
structure DataTransfer where
  types : List String
deriving DecidableEq, Repr

/-- A `DragEvent` as seen by `dragOverHandler`: `dataTransfer` may be null. -/
structure DragEvent where
  dataTransfer : Option DataTransfer
deriving DecidableEq, Repr

/-- The DOM effects of one run of `ProjectList.dragOverHandler`: whether
`event.preventDefault()` was called and whether the `"droppable"` class was
added to the list element. -/
structure DragOverResult where
  prevented : Bool
  droppableAdded : Bool
deriving DecidableEq, Repr

/-- `ProjectList.dragOverHandler`: if `event.dataTransfer` is non-null and
`event.dataTransfer.types[0] === "text/plain"`, prevents the default action
and adds the `"droppable"` class; otherwise does nothing. -/
def ProjectList.dragOverHandler (event : DragEvent) : DragOverResult :=
  match event.dataTransfer with
  | some dt =>
    if dt.types.head? = some "text/plain" then ⟨true, true⟩
    else ⟨false, false⟩
  | none => ⟨false, false⟩

/-- A concrete project used to instantiate the theorems below. -/
def sampleProject : Project :=
  ⟨"p1", "Ship it", "Launch the new feature", 3, ProjectStatus.Active⟩

/-- A concrete one-array heap: address `0` holds `[sampleProject]`. -/
def sampleHeap : Heap := ⟨[[sampleProject]]⟩

/-- A concrete store: its `projects` field is address `0`, with two
registered listeners. -/
def sampleState : ProjectState := ⟨0, [0, 1]⟩

/-! ### Heap lemmas -/

theorem Heap.length_write (h : Heap) (a : Nat) (v : List Project) :
    (h.write a v).cells.length = h.cells.length := by
  simp [Heap.write]

theorem Heap.read_write_self (h : Heap) {a : Nat} (hv : a < h.cells.length)
    (v : List Project) : (h.write a v).read a = v := by
  unfold Heap.write Heap.read
  rw [List.getD_eq_getElem _ _ (by simpa using hv)]
  simp

theorem Heap.read_write_ne (h : Heap) {a b : Nat} (hne : a ≠ b)
    (v : List Project) : (h.write a v).read b = h.read b := by
  unfold Heap.write Heap.read
  simp only [List.getD_eq_getD_get?, List.get?_eq_getElem?]
  rw [List.getElem?_set_ne hne]

theorem Heap.length_alloc (h : Heap) (v : List Project) :
    (h.alloc v).1.cells.length = h.cells.length + 1 := by
  simp [Heap.alloc]

theorem Heap.read_alloc_lt (h : Heap) {a : Nat} (ha : a < h.cells.length)
    (v : List Project) : (h.alloc v).1.read a = h.read a := by
  unfold Heap.alloc Heap.read
  simp only [List.getD_eq_getD_get?, List.get?_eq_getElem?]
  rw [List.getElem?_append_left ha]

theorem Heap.read_alloc_self (h : Heap) (v : List Project) :
    (h.alloc v).1.read (h.alloc v).2 = v := by
  unfold Heap.alloc Heap.read
  rw [List.getD_eq_getElem _ _ (by simp)]
  simp

/-! ### Behaviour of the notification loop -/

/-- Combined facts about one `updateListeners` pass: the heap grows by one
fresh array per listener, live arrays (hence the store's own array) are
untouched, the events list the listeners in registration order, and every
delivered snapshot sits at a fresh address (distinct from every address live
before the pass) and holds the contents of the source array. -/
theorem notifyAll_spec (src : Nat) (ls : List Nat) (h : Heap)
    (hsrc : src < h.cells.length) :
    (notifyAll src h ls).1.cells.length = h.cells.length + ls.length ∧
    (∀ a, a < h.cells.length → (notifyAll src h ls).1.read a = h.read a) ∧
    (notifyAll src h ls).2.map Prod.fst = ls ∧
    (∀ ev ∈ (notifyAll src h ls).2,
      h.cells.length ≤ ev.2 ∧ ev.2 < (notifyAll src h ls).1.cells.length ∧
      (notifyAll src h ls).1.read ev.2 = h.read src) := by
  induction ls generalizing h with
  | nil => simp [notifyAll]
  | cons l ls ih =>
    have hlen1 : (h.alloc (h.read src)).1.cells.length = h.cells.length + 1 :=
      Heap.length_alloc h _
    have hsrc1 : src < (h.alloc (h.read src)).1.cells.length := by
      rw [hlen1]; omega
    obtain ⟨ihlen, ihpres, ihmap, ihev⟩ := ih (h.alloc (h.read src)).1 hsrc1
    rw [hlen1] at ihlen
    refine ⟨?_, ?_, ?_, ?_⟩
    · simp only [notifyAll]
      rw [ihlen]
      simp only [List.length_cons]
      omega
    · intro a ha
      have ha1 : a < (h.alloc (h.read src)).1.cells.length := by
        rw [hlen1]; omega
      simp only [notifyAll]
      rw [ihpres a ha1, Heap.read_alloc_lt h ha]
    · simp only [notifyAll, List.map_cons]
      rw [ihmap]
    · intro ev hev
      simp only [notifyAll, List.mem_cons] at hev
      rcases hev with rfl | hev
      · have haddr : (h.alloc (h.read src)).2 = h.cells.length := rfl
        refine ⟨by rw [haddr], ?_, ?_⟩
        · simp only [notifyAll]
          rw [ihlen, haddr]
          omega
        · have hlt : (h.alloc (h.read src)).2 <
              (h.alloc (h.read src)).1.cells.length := by
            rw [hlen1, haddr]; omega
          simp only [notifyAll]
          rw [ihpres _ hlt, Heap.read_alloc_self]
      · obtain ⟨h1, h2, h3⟩ := ihev ev hev
        rw [hlen1] at h1
        refine ⟨by omega, ?_, ?_⟩
        · simpa only [notifyAll] using h2
        · simp only [notifyAll]
          rw [h3, Heap.read_alloc_lt h hsrc]

/-- Running `updateListeners` on a live store array: listeners are notified in
registration order, the store's own array is untouched, and each delivered
snapshot lives at an address distinct from the store's array and holds its
current contents. -/
theorem updateListeners_run (h : Heap) (s : ProjectState)
    (hv : s.projectsRef < h.cells.length) :
    (ProjectState.updateListeners h s).2.map Prod.fst = s.listeners ∧
    (ProjectState.updateListeners h s).1.read s.projectsRef =
      h.read s.projectsRef ∧
    ∀ ev ∈ (ProjectState.updateListeners h s).2,
      ev.2 ≠ s.projectsRef ∧
      (ProjectState.updateListeners h s).1.read ev.2 = h.read s.projectsRef := by
  obtain ⟨hlen, hpres, hmap, hev⟩ := notifyAll_spec s.projectsRef s.listeners h hv
  refine ⟨hmap, hpres _ hv, fun ev hmem => ?_⟩
  obtain ⟨hge, _, hread⟩ := hev ev hmem
  exact ⟨fun heq => absurd hv (by omega), hread⟩

/-- Running `addProject`: the instance fields are unchanged, the store's array
gains exactly the new project at the end, and every listener is notified in
registration order. -/
theorem addProject_run (h : Heap) (s : ProjectState)
    (freshId title description : String) (numberOfPeople : Int)
    (hv : s.projectsRef < h.cells.length) :
    (ProjectState.addProject h s freshId title description numberOfPeople).2.1
        = s ∧
    (ProjectState.addProject h s freshId title description
        numberOfPeople).1.read s.projectsRef =
      h.read s.projectsRef ++
        [⟨freshId, title, description, numberOfPeople,
          ProjectStatus.Active⟩] ∧
    (ProjectState.addProject h s freshId title description
        numberOfPeople).2.2.map Prod.fst = s.listeners := by
  have hv1 : s.projectsRef <
      (h.write s.projectsRef (h.read s.projectsRef ++
        [⟨freshId, title, description, numberOfPeople,
          ProjectStatus.Active⟩])).cells.length := by
    rw [Heap.length_write]; exact hv
  obtain ⟨hmap, hpres, _⟩ := updateListeners_run _ s hv1
  refine ⟨rfl, ?_, ?_⟩
  · show (ProjectState.updateListeners _ s).1.read s.projectsRef = _
    rw [hpres, Heap.read_write_self h hv]
  · exact hmap

/-- Updating no element: if no element of `L` has id `pid`, the pointwise
status update is the identity. -/
theorem map_setStatus_of_no_match (pid : String) (st : ProjectStatus)
    (L : List Project) (hnm : ∀ q ∈ L, q.id ≠ pid) :
    L.map (fun q => if q.id = pid then { q with status := st } else q) = L := by
  induction L with
  | nil => rfl
  | cons p ps ih =>
    simp only [List.map_cons]
    rw [if_neg (hnm p (List.mem_cons_self p ps)),
      ih fun q hq => hnm q (List.mem_cons_of_mem p hq)]

/-- When the ids in `L` are pairwise distinct, mutating the status of the
first id-match coincides with the pointwise update of every id-match. -/
theorem setStatusFirst_eq_map (pid : String) (st : ProjectStatus)
    (L : List Project) (hnd : (L.map Project.id).Nodup) :
    setStatusFirst pid st L =
      L.map (fun q => if q.id = pid then { q with status := st } else q) := by
  induction L with
  | nil => rfl
  | cons p ps ih =>
    rw [List.map_cons, List.nodup_cons] at hnd
    by_cases hp : p.id = pid
    · simp only [setStatusFirst, List.map_cons, if_pos hp]
      rw [map_setStatus_of_no_match pid st ps]
      intro q hq hqid
      have hqm : q.id ∈ List.map Project.id ps := List.mem_map_of_mem Project.id hq
      rw [hqid, ← hp] at hqm
      exact hnd.1 hqm
    · simp only [setStatusFirst, List.map_cons, if_neg hp]
      rw [ih hnd.2]

/-- Running `moveProject` when the lookup succeeds and the status differs:
the instance fields are unchanged, the store's array becomes the old array
with the first id-match's status replaced, and every listener is notified in
registration order. -/
theorem moveProject_run (h : Heap) (s : ProjectState) (pid : String)
    (st : ProjectStatus) (p : Project)
    (hv : s.projectsRef < h.cells.length)
    (hfind : (h.read s.projectsRef).find? (fun q => q.id == pid) = some p)
    (hst : p.status ≠ st) :
    (ProjectState.moveProject h s pid st).2.1 = s ∧
    (ProjectState.moveProject h s pid st).1.read s.projectsRef =
      setStatusFirst pid st (h.read s.projectsRef) ∧
    (ProjectState.moveProject h s pid st).2.2.map Prod.fst = s.listeners := by
  have hv1 : s.projectsRef <
      (h.write s.projectsRef
        (setStatusFirst pid st (h.read s.projectsRef))).cells.length := by
    rw [Heap.length_write]; exact hv
  obtain ⟨hmap, hpres, _⟩ := updateListeners_run _ s hv1
  simp only [ProjectState.moveProject, hfind, if_pos hst]
  refine ⟨trivial, ?_, ?_⟩
  · show (ProjectState.updateListeners _ s).1.read s.projectsRef = _
    rw [hpres, Heap.read_write_self h hv]
  · exact hmap

/-! ### The claims -/

/-- C1.  `addProject(title, description, peopleCount)` leaves the store's
sequence equal to the old sequence with exactly one new project appended,
carrying the given title, description and people count, status `Active`, and
the freshly generated id (`Math.random().toString()` is modelled by the
parameter `freshId`, assumed distinct from all stored ids as the spec's
"freshly generated unique identifier" demands); when the old ids were
pairwise distinct the new ids are too, so the store keeps at most one entry
per id. -/
theorem addProject_appends_unique (h : Heap) (s : ProjectState)
    (freshId title description : String) (numberOfPeople : Int)
    (hv : s.projectsRef < h.cells.length)
    (hfresh : freshId ∉ (h.read s.projectsRef).map Project.id)
    (hnd : ((h.read s.projectsRef).map Project.id).Nodup) :
    (ProjectState.addProject h s freshId title description numberOfPeople).2.1
        = s ∧
    (ProjectState.addProject h s freshId title description
        numberOfPeople).1.read s.projectsRef =
      h.read s.projectsRef ++
        [⟨freshId, title, description, numberOfPeople,
          ProjectStatus.Active⟩] ∧
    (((ProjectState.addProject h s freshId title description
        numberOfPeople).1.read s.projectsRef).map Project.id).Nodup := by
  obtain ⟨hstate, hread, _⟩ :=
    addProject_run h s freshId title description numberOfPeople hv
  refine ⟨hstate, hread, ?_⟩
  rw [hread, List.map_append]
  rw [List.nodup_append]
  refine ⟨hnd, by simp, ?_⟩
  intro a ha hb
  simp only [List.map_cons, List.map_nil, List.mem_singleton] at hb
  rw [hb] at ha
  exact hfresh ha

/-- C1 witness: a concrete run of `addProject` on `sampleHeap`. -/
theorem addProject_appends_unique_instance :
    (ProjectState.addProject sampleHeap sampleState "p2" "T" "D" 2).1.read
        sampleState.projectsRef =
      sampleHeap.read sampleState.projectsRef ++
        [⟨"p2", "T", "D", 2, ProjectStatus.Active⟩] ∧
    (((ProjectState.addProject sampleHeap sampleState "p2" "T" "D"
        2).1.read sampleState.projectsRef).map Project.id).Nodup := by
  have h := addProject_appends_unique sampleHeap sampleState "p2" "T" "D" 2
    (by decide) (by decide) (by decide)
  exact ⟨h.2.1, h.2.2⟩

/-- C2.  `moveProject(id, newStatus)` is a silent no-op — heap, store and
notifications (none) are all unchanged, and being a total function it raises
no exception — whenever the lookup fails or the found project already has
status `newStatus`. -/
theorem moveProject_silent_noop (h : Heap) (s : ProjectState) (pid : String)
    (st : ProjectStatus)
    (hcond : (h.read s.projectsRef).find? (fun q => q.id == pid) = none ∨
      ∃ p, (h.read s.projectsRef).find? (fun q => q.id == pid) = some p ∧
        p.status = st) :
    ProjectState.moveProject h s pid st = (h, s, []) := by
  rcases hcond with hnone | ⟨p, hfind, hstat⟩
  · simp only [ProjectState.moveProject, hnone]
  · simp only [ProjectState.moveProject, hfind]
    rw [if_neg (not_not_intro hstat)]

/-- C2 witness: moving an id that is not in the store, and moving a stored
project to the status it already has, both leave everything unchanged. -/
theorem moveProject_silent_noop_instance :
    ProjectState.moveProject sampleHeap sampleState "nope"
        ProjectStatus.Finished = (sampleHeap, sampleState, []) ∧
    ProjectState.moveProject sampleHeap sampleState "p1"
        ProjectStatus.Active = (sampleHeap, sampleState, []) := by
  constructor
  · exact moveProject_silent_noop sampleHeap sampleState "nope"
      ProjectStatus.Finished (Or.inl (by decide))
  · exact moveProject_silent_noop sampleHeap sampleState "p1"
      ProjectStatus.Active (Or.inr ⟨sampleProject, by decide, by decide⟩)

/-- C5.  A notification pass hands every registered listener, in registration
order, a snapshot array whose address differs from the store's own array, so
that overwriting the received array with anything leaves the store's internal
sequence unchanged (snapshot isolation); each snapshot holds the store's
current sequence. -/
theorem updateListeners_snapshot_isolation (h : Heap) (s : ProjectState)
    (hv : s.projectsRef < h.cells.length) :
    (ProjectState.updateListeners h s).2.map Prod.fst = s.listeners ∧
    ∀ ev ∈ (ProjectState.updateListeners h s).2,
      (ProjectState.updateListeners h s).1.read ev.2 =
        h.read s.projectsRef ∧
      ∀ v, ((ProjectState.updateListeners h s).1.write ev.2 v).read
          s.projectsRef =
        (ProjectState.updateListeners h s).1.read s.projectsRef := by
  obtain ⟨hmap, _, hev⟩ := updateListeners_run h s hv
  refine ⟨hmap, fun ev hmem => ?_⟩
  obtain ⟨hne, hread⟩ := hev ev hmem
  exact ⟨hread, fun v => Heap.read_write_ne _ hne v⟩

/-- C5 witness: a concrete notification pass on `sampleHeap`; mutating the
first listener's snapshot (address 1) does not change the store's array. -/
theorem updateListeners_snapshot_isolation_instance :
    (ProjectState.updateListeners sampleHeap sampleState).2.map Prod.fst =
      sampleState.listeners ∧
    ((ProjectState.updateListeners sampleHeap sampleState).1.write 1
        []).read sampleState.projectsRef =
      (ProjectState.updateListeners sampleHeap sampleState).1.read
        sampleState.projectsRef := by
  have h := updateListeners_snapshot_isolation sampleHeap sampleState
    (by decide)
  exact ⟨h.1, (h.2 (0, 1) (by decide)).2 []⟩

/-- C6.  When the lookup succeeds and the status differs, `moveProject`
replaces the store's sequence by its pointwise image in which exactly the
project with the given id has its status set to `newStatus` and every other
field and every other project — and the order — are untouched (ids assumed
pairwise distinct, per the spec's at-most-one-entry-per-id invariant). -/
theorem moveProject_only_status (h : Heap) (s : ProjectState) (pid : String)
    (st : ProjectStatus) (p : Project)
    (hv : s.projectsRef < h.cells.length)
    (hfind : (h.read s.projectsRef).find? (fun q => q.id == pid) = some p)
    (hst : p.status ≠ st)
    (hnd : ((h.read s.projectsRef).map Project.id).Nodup) :
    (ProjectState.moveProject h s pid st).2.1 = s ∧
    (ProjectState.moveProject h s pid st).1.read s.projectsRef =
      (h.read s.projectsRef).map
        (fun q => if q.id = pid then { q with status := st } else q) := by
  obtain ⟨hstate, hread, _⟩ := moveProject_run h s pid st p hv hfind hst
  exact ⟨hstate, by rw [hread, setStatusFirst_eq_map pid st _ hnd]⟩

/-- C6 witness: moving `sampleProject` to `Finished` changes exactly its
status. -/
theorem moveProject_only_status_instance :
    (ProjectState.moveProject sampleHeap sampleState "p1"
        ProjectStatus.Finished).1.read sampleState.projectsRef =
      (sampleHeap.read sampleState.projectsRef).map
        (fun q => if q.id = "p1" then { q with status := ProjectStatus.Finished }
          else q) :=
  (moveProject_only_status sampleHeap sampleState "p1"
    ProjectStatus.Finished sampleProject (by decide) (by decide) (by decide)
    (by decide)).2

/-- C3.  `validate` (a pure Lean function, hence side-effect free) returns
`true` exactly when every supplied constraint passes: `required` demands a
non-empty trimmed string form, `minLength`/`maxLength` bound the length of
string values inclusively (skipped for numbers), and `min`/`max` bound
numeric values inclusively (skipped for strings) — the conjunction captured
by `validSpec`, written from the spec's words. -/
theorem validate_iff_validSpec (i : Validatable) :
    validate i = true ↔ validSpec i := by
  obtain ⟨v, req, mnl, mxl, mn, mx⟩ := i
  cases v <;> rcases req with _ | (_ | _) <;> cases mnl <;> cases mxl <;>
    cases mn <;> cases mx <;>
      simp [validate, validSpec, and_assoc]

/-- C7.  A numeric value `0` with `required` set passes `validate`, and in
general the `required` check is exactly the test that the value's trimmed
string form is non-empty — it is never decided by the value being falsy. -/
theorem validate_required_zero :
    validate ⟨.num 0, some true, none, none, none, none⟩ = true ∧
    ∀ v : JSValue, validate ⟨v, some true, none, none, none, none⟩ =
      decide ((jsTrim v.toStr).length ≠ 0) := by
  refine ⟨by decide, fun v => ?_⟩
  cases v <;> simp [validate]

/-- C8.  The `persons` getter pluralizes: `"1 person"` for a people count of
exactly `1` and `"N people"` for every other count, and `renderContent`
renders the `h3` label as `persons` followed by `" assigned"`. -/
theorem persons_pluralization (project : Project) :
    (project.people = 1 → ProjectItem.persons project = "1 person") ∧
    (project.people ≠ 1 →
      ProjectItem.persons project = toString project.people ++ " people") ∧
    (ProjectItem.renderContent project).h3 =
      ProjectItem.persons project ++ " assigned" := by
  refine ⟨fun h1 => ?_, fun h1 => ?_, rfl⟩
  · simp [ProjectItem.persons, h1]
  · simp [ProjectItem.persons, h1]

/-- C8 witness: counts 1 and 3 produce `"1 person assigned"` and
`"3 people assigned"`. -/
theorem persons_pluralization_instance :
    (ProjectItem.renderContent ⟨"a", "t", "d", 1, ProjectStatus.Active⟩).h3 =
      "1 person assigned" ∧
    (ProjectItem.renderContent ⟨"b", "t", "d", 3, ProjectStatus.Active⟩).h3 =
      "3 people assigned" := by
  constructor
  · have h := persons_pluralization ⟨"a", "t", "d", 1, ProjectStatus.Active⟩
    rw [h.2.2, h.1 rfl]
    decide
  · have h := persons_pluralization ⟨"b", "t", "d", 3, ProjectStatus.Active⟩
    rw [h.2.2, h.2.1 (by decide)]
    decide

/-- C9 counterexample: a drag event whose payload carries `text/plain` as its
second MIME type (after `text/html`) is nevertheless rejected by
`dragOverHandler` — the handler tests only `types[0]`, so "accepts iff the
payload carries `text/plain`" fails. -/
theorem dragOver_carried_but_rejected :
    "text/plain" ∈ (DataTransfer.mk ["text/html", "text/plain"]).types ∧
    ProjectList.dragOverHandler
        ⟨some (DataTransfer.mk ["text/html", "text/plain"])⟩ =
      ⟨false, false⟩ := by
  decide

/-- C9 (amended).  `dragOverHandler` accepts a drag — suppresses the default
action and marks the drop zone — exactly when the event has a `dataTransfer`
whose FIRST listed payload type is `text/plain`; in every other case it does
neither (in particular for any payload not carrying plain text at all). -/
theorem dragOver_accepts_iff_first_type (event : DragEvent) :
    ((ProjectList.dragOverHandler event).prevented = true ↔
      ∃ dt, event.dataTransfer = some dt ∧
        dt.types.head? = some "text/plain") ∧
    (ProjectList.dragOverHandler event).droppableAdded =
      (ProjectList.dragOverHandler event).prevented := by
  rcases event with ⟨_ | dt⟩
  · simp [ProjectList.dragOverHandler]
  · by_cases hd : dt.types.head? = some "text/plain" <;>
      simp [ProjectList.dragOverHandler, hd]

/-- C4.  `submitHandler` is gated by the three `Validatable` descriptors
(title: required; description: required, minLength 5; people coerced to a
number: required, min 1, max 5): if any fails `validate`, exactly the alert
`"Invalid input, please try again!"` is shown and nothing else happens — no
`addProject` call, store and heap untouched, fields keep their entered
values; otherwise `addProject` is called with the entered title and
description and the coerced people value, no alert is shown, and all three
fields are cleared to `""`. -/
theorem submitHandler_validation_gate (coerce : String → Int)
    (freshId : String) (f : FormFields) (h : Heap) (s : ProjectState) :
    (¬ (validate ⟨.str f.title, some true, none, none, none, none⟩ = true ∧
        validate ⟨.str f.description, some true, some 5, none, none, none⟩
          = true ∧
        validate ⟨.num (coerce f.people), some true, none, none, some 1,
          some 5⟩ = true) →
      submitHandler coerce freshId f h s =
        ⟨h, s, [], f, ["Invalid input, please try again!"], []⟩) ∧
    ((validate ⟨.str f.title, some true, none, none, none, none⟩ = true ∧
      validate ⟨.str f.description, some true, some 5, none, none, none⟩
        = true ∧
      validate ⟨.num (coerce f.people), some true, none, none, some 1,
        some 5⟩ = true) →
      (submitHandler coerce freshId f h s).addProjectCalls =
        [(f.title, f.description, coerce f.people)] ∧
      (submitHandler coerce freshId f h s).fields = ⟨"", "", ""⟩ ∧
      (submitHandler coerce freshId f h s).alerts = [] ∧
      (submitHandler coerce freshId f h s).heap =
        (ProjectState.addProject h s freshId f.title f.description
          (coerce f.people)).1 ∧
      (submitHandler coerce freshId f h s).state =
        (ProjectState.addProject h s freshId f.title f.description
          (coerce f.people)).2.1 ∧
      (submitHandler coerce freshId f h s).notifications =
        (ProjectState.addProject h s freshId f.title f.description
          (coerce f.people)).2.2) := by
  constructor
  · intro hne
    rcases ha : validate ⟨.str f.title, some true, none, none, none, none⟩
      with _ | _
    · simp [submitHandler, gatherUserInput, ha]
    · rcases hb : validate ⟨.str f.description, some true, some 5, none,
          none, none⟩ with _ | _
      · simp [submitHandler, gatherUserInput, ha, hb]
      · rcases hc : validate ⟨.num (coerce f.people), some true, none, none,
            some 1, some 5⟩ with _ | _
        · simp [submitHandler, gatherUserInput, ha, hb, hc]
        · exact absurd ⟨ha, hb, hc⟩ hne
  · rintro ⟨ha, hb, hc⟩
    simp [submitHandler, gatherUserInput, ha, hb, hc]

/-- C4 witness: empty fields trigger exactly the alert and change nothing;
the inputs `("Ship it", "Launch the new feature", "3")` (with the coercion
sending every string to 3) reach `addProject` and clear the fields. -/
theorem submitHandler_validation_gate_instance :
    submitHandler (fun _ => 3) "p9" ⟨"", "", ""⟩ sampleHeap sampleState =
      ⟨sampleHeap, sampleState, [], ⟨"", "", ""⟩,
        ["Invalid input, please try again!"], []⟩ ∧
    (submitHandler (fun _ => 3) "p9"
        ⟨"Ship it", "Launch the new feature", "3"⟩ sampleHeap
        sampleState).addProjectCalls =
      [("Ship it", "Launch the new feature", 3)] ∧
    (submitHandler (fun _ => 3) "p9"
        ⟨"Ship it", "Launch the new feature", "3"⟩ sampleHeap
        sampleState).fields = ⟨"", "", ""⟩ := by
  refine ⟨?_, ?_, ?_⟩
  · exact (submitHandler_validation_gate (fun _ => 3) "p9" ⟨"", "", ""⟩
      sampleHeap sampleState).1 (by decide)
  · exact ((submitHandler_validation_gate (fun _ => 3) "p9"
      ⟨"Ship it", "Launch the new feature", "3"⟩ sampleHeap
      sampleState).2 (by decide)).1
  · exact ((submitHandler_validation_gate (fun _ => 3) "p9"
      ⟨"Ship it", "Launch the new feature", "3"⟩ sampleHeap
      sampleState).2 (by decide)).2.1

/-- C10.  `addProject` itself validates nothing: for every title and
description (empty included) and every people count (zero and negatives
included) it appends a project carrying exactly those values and notifies
every listener; the title/description/people constraints are enforced only
by `ProjectInput`, whose `submitHandler` reaches `addProject` only when the
three descriptors pass `validate`. -/
theorem addProject_unvalidated :
    (∀ (h : Heap) (s : ProjectState) (freshId title description : String)
        (numberOfPeople : Int), s.projectsRef < h.cells.length →
      (ProjectState.addProject h s freshId title description
          numberOfPeople).1.read s.projectsRef =
        h.read s.projectsRef ++
          [⟨freshId, title, description, numberOfPeople,
            ProjectStatus.Active⟩] ∧
      (ProjectState.addProject h s freshId title description
          numberOfPeople).2.2.map Prod.fst = s.listeners) ∧
    (∀ (coerce : String → Int) (freshId : String) (f : FormFields)
        (h : Heap) (s : ProjectState),
      (submitHandler coerce freshId f h s).addProjectCalls ≠ [] →
      validate ⟨.str f.title, some true, none, none, none, none⟩ = true ∧
      validate ⟨.str f.description, some true, some 5, none, none, none⟩
        = true ∧
      validate ⟨.num (coerce f.people), some true, none, none, some 1,
        some 5⟩ = true) := by
  constructor
  · intro h s freshId title description numberOfPeople hv
    obtain ⟨_, hread, hmap⟩ :=
      addProject_run h s freshId title description numberOfPeople hv
    exact ⟨hread, hmap⟩
  · intro coerce freshId f h s hne
    rcases ha : validate ⟨.str f.title, some true, none, none, none, none⟩
      with _ | _
    · exact absurd (by simp [submitHandler, gatherUserInput, ha]) hne
    · rcases hb : validate ⟨.str f.description, some true, some 5, none,
          none, none⟩ with _ | _
      · exact absurd (by simp [submitHandler, gatherUserInput, ha, hb]) hne
      · rcases hc : validate ⟨.num (coerce f.people), some true, none, none,
            some 1, some 5⟩ with _ | _
        · exact absurd (by simp [submitHandler, gatherUserInput, ha, hb, hc])
            hne
        · exact ⟨rfl, rfl, rfl⟩

/-- C10 witness: `addProject` accepts an empty title, empty description and a
negative people count; and a run of `submitHandler` that did call
`addProject` had a passing people descriptor. -/
theorem addProject_unvalidated_instance :
    (ProjectState.addProject sampleHeap sampleState "p3" "" "" (-2)).1.read
        sampleState.projectsRef =
      sampleHeap.read sampleState.projectsRef ++
        [⟨"p3", "", "", -2, ProjectStatus.Active⟩] ∧
    validate ⟨.num 3, some true, none, none, some 1, some 5⟩ = true := by
  constructor
  · exact (addProject_unvalidated.1 sampleHeap sampleState "p3" "" "" (-2)
      (by decide)).1
  · exact (addProject_unvalidated.2 (fun _ => 3) "p9"
      ⟨"Ship it", "Launch the new feature", "3"⟩ sampleHeap sampleState
      (by decide)).2.2

end App
